import Mathlib

/-!
# Verification of `artifactory_cleanup/loaders.py`

Shallow embedding of the loader module of `artifactory-cleanup`:
the rule registry (`RuleRegistry`), the reflection-driven schema
synthesizer (`SchemaBuilder._get_rule_conditionals`), the declarative
YAML loader (`YamlConfigLoader.get_policies` / `_build_rule` /
`get_connection`) and the script loader (`PythonLoader.get_policies`).

Python dicts are embedded as association lists in insertion order
(assignment to an existing key overwrites in place, a new key is
appended).  Raising exceptions is embedded as `Except`; `sys.exit` as
a dedicated error outcome carrying the exit code.
-/

set_option autoImplicit false

namespace ArtifactoryCleanup

/-! ## Values

Scalar configuration values appearing as validated document fields and
as constructor defaults. -/

inductive Value where
  | vstr (s : String)
  | vint (n : Int)
  | vnone
  deriving DecidableEq, Repr

/-! ## Constructor signatures

Embedding of what `inspect.signature(rule.__init__).parameters` exposes
of a rule constructor: for each parameter its name, its kind, its
annotation (`param.empty` when unannotated) and its default
(`param.empty` when required).  The loader's code reads only `name`,
`annotation` and `default`; the `kind` field is carried so that the
treatment of variadic parameters can be stated. -/

inductive Ann where
  | empty
  | int
  | str
  | other
  deriving DecidableEq, Repr

inductive ParamKind where
  | positionalOnly
  | positionalOrKeyword
  | varPositional
  | keywordOnly
  | varKeyword
  deriving DecidableEq, Repr

structure Param where
  pname : String
  kind : ParamKind
  annotation : Ann
  default : Option Value
  deriving DecidableEq, Repr

/-! ## cfgv field descriptors

The schema synthesizer only ever builds `cfgv.Conditional` and
`cfgv.ConditionalOptional` descriptors, with a check function chosen
among `cfgv.check_int`, `cfgv.check_string`, `cfgv.check_any`, gated on
the discriminant key `"rule"` being `cfgv.In(name)`.  They are embedded
as plain data. -/

inductive CheckFn where
  | check_int
  | check_string
  | check_any
  deriving DecidableEq, Repr

inductive Conditional where
  | conditional (key : String) (check : CheckFn)
      (conditionKey : String) (conditionValue : String) (ensureAbsent : Bool)
  | conditionalOptional (key : String) (check : CheckFn) (default : Value)
      (conditionKey : String) (conditionValue : String) (ensureAbsent : Bool)
  deriving DecidableEq, Repr

/-- The document key a descriptor validates. -/
def Conditional.key : Conditional → String
  | .conditional k _ _ _ _ => k
  | .conditionalOptional k _ _ _ _ _ => k

/-! ## Rule types

A registered rule class: its identity (`clsId`, standing for Python
class identity), the result of its `name()` classmethod, its optional
hand-written `schema` override, and its constructor parameters. -/

structure RuleType where
  clsId : Nat
  ruleName : String
  schemaOverride : Option (List Conditional)
  params : List Param
  deriving DecidableEq, Repr

/-- Modelled from the spec: the repository-targeting rule class `Repo`
(from `artifactory_cleanup.rules`, whose source is not under `src/`).
Only its identity matters to the loader (`rule_cls == Repo`); its
constructor takes the repository name. -/
def Repo : RuleType :=
  { clsId := 0
    ruleName := "Repo"
    schemaOverride := none
    params := [{ pname := "name", kind := .positionalOrKeyword, annotation := .str, default := none }] }

/-! ## Schema synthesis (`_get_check_fn`, `SchemaBuilder._get_rule_conditionals`) -/

/-- `_get_check_fn(annotation)`: `cfgv.check_int` for `int`,
`cfgv.check_string` for `str`, otherwise `cfgv.check_any`. -/
def getCheckFn : Ann → CheckFn
  | .int => .check_int
  | .str => .check_string
  | _ => .check_any

/-- The loop body of `_get_rule_conditionals`: parameters named
`self`, `args` or `kwargs` are skipped (`continue`); otherwise one
descriptor is emitted per parameter, `ConditionalOptional` with the
default when the parameter has one, `Conditional` otherwise, gated on
`"rule"` being `cfgv.In(name)` with `ensure_absent=False`. -/
def conditionalsOfParams (name : String) : List Param → List Conditional
  | [] => []
  | p :: rest =>
    if p.pname = "self" ∨ p.pname = "args" ∨ p.pname = "kwargs" then
      conditionalsOfParams name rest
    else
      let check := if p.annotation = Ann.empty then CheckFn.check_any else getCheckFn p.annotation
      (match p.default with
        | some d => Conditional.conditionalOptional p.pname check d "rule" name false
        | none => Conditional.conditional p.pname check "rule" name false)
        :: conditionalsOfParams name rest

/-- `SchemaBuilder._get_rule_conditionals(name, rule)`: the rule's
`schema` attribute verbatim when set, otherwise descriptors synthesized
from the constructor signature. -/
def getRuleConditionals (name : String) (rule : RuleType) : List Conditional :=
  match rule.schemaOverride with
  | some s => s
  | none => conditionalsOfParams name rule.params

/-! ## Rule registry (`RuleRegistry`) -/

/-- `RuleRegistry.rules`: a Python dict from rule name to rule class,
as an insertion-ordered association list. -/
abbrev Registry := List (String × RuleType)

/-- First value bound to `name`, if any (Python `name in self.rules` /
`self.rules[name]`). -/
def lookupName : Registry → String → Option RuleType
  | [], _ => none
  | p :: rest, name => if p.1 = name then some p.2 else lookupName rest name

/-- Python dict assignment `d[k] = v`: overwrite in place when the key
is present, append otherwise. -/
def dictInsert (reg : Registry) (name : String) (rule : RuleType) : Registry :=
  match lookupName reg name with
  | some _ => reg.map fun p => if p.1 = name then (name, rule) else p
  | none => reg ++ [(name, rule)]

/-- The error raised by `RuleRegistry.get` on an absent name (a
`KeyError` from dict indexing; the spec's `UnknownRuleError`). -/
structure UnknownRuleError where
  name : String
  deriving DecidableEq, Repr

/-- `RuleRegistry.get(name)`: `self.rules[name]`, raising on absence. -/
def RuleRegistry.get (reg : Registry) (name : String) : Except UnknownRuleError RuleType :=
  match lookupName reg name with
  | some t => .ok t
  | none => .error ⟨name⟩

/-- `name = name or rule.name()`: Python `or` falls through on a falsy
(`None` or empty) explicit name. -/
def effectiveName (nameOpt : Option String) (rule : RuleType) : String :=
  match nameOpt with
  | some n => if n = "" then rule.ruleName else n
  | none => rule.ruleName

/-- `RuleRegistry.register(rule, name=None, warning=True)`.  Returns the
updated registry and whether the duplicate-name warning was emitted (in
which case the method returned without touching the mapping). -/
def RuleRegistry.register (reg : Registry) (rule : RuleType) (nameOpt : Option String)
    (warning : Bool) : Registry × Bool :=
  if (lookupName reg (effectiveName nameOpt rule)).isSome ∧ warning then
    (reg, true)
  else
    (dictInsert reg (effectiveName nameOpt rule) rule, false)

/-! ## Document data (the shape `cfgv` validation guarantees)

A validated document is `{"artifactory-cleanup": {"server", "user",
"password", "policies": [{"name", "rules": [{"rule": ..., ...}]}]}}`.
A rule entry is its required `"rule"` discriminant plus the remaining
fields (`kwargs` after `kwargs.pop("rule")`). -/

structure RuleData where
  rule : String
  fields : List (String × Value)
  deriving DecidableEq, Repr

structure PolicyData where
  pdName : String
  pdRules : List RuleData
  deriving DecidableEq, Repr

structure Config where
  server : String
  user : String
  password : String
  policies : List PolicyData
  deriving DecidableEq, Repr

/-! ## Policy model -/

/-- An instantiated rule: `rule_cls(**kwargs)` succeeded, binding the
validated fields.  The constructor semantics of each rule class live
outside this module, so policy building is parametrized by a
`Constructor` that may raise (`Except.error` carries `str(exc)`). -/
structure RuleInstance where
  cls : RuleType
  boundArgs : List (String × Value)
  deriving DecidableEq, Repr

abbrev Constructor := RuleType → List (String × Value) → Except String RuleInstance

/-- An element of a policy's rule sequence: `Union[Rule, Type[Rule]]` —
either a constructed instance or the deferred rule-class placeholder. -/
inductive RuleItem where
  | builtRule (i : RuleInstance)
  | deferredType (t : RuleType)
  deriving DecidableEq, Repr

/-- Modelled from the spec: `CleanupPolicy` (from
`artifactory_cleanup.rules.base`, whose source is not under `src/`) —
"a policy is a name plus an ordered sequence of resolved rule instances
(or ... a deferred placeholder)"; `CleanupPolicy(policy_name, *rules)`
stores the given rules in order. -/
structure CleanupPolicy where
  name : String
  rules : List RuleItem
  deriving DecidableEq, Repr

/-! ## Declarative loader (`YamlConfigLoader`) -/

/-- `YamlConfigLoader._build_rule(rule_data)`: deep-copy the entry, pop
the `"rule"` discriminant, look it up in the registry (a `KeyError`
propagates as an exception), return the `Repo` class itself when it was
resolved and no further fields were supplied, otherwise construct
`rule_cls(**kwargs)`. -/
def buildRule (reg : Registry) (construct : Constructor) (rd : RuleData) :
    Except String RuleItem :=
  match RuleRegistry.get reg rd.rule with
  | .error e => .error ("KeyError: " ++ e.name)
  | .ok ruleCls =>
    if ruleCls = Repo ∧ rd.fields = [] then
      .ok (.deferredType ruleCls)
    else
      (construct ruleCls rd.fields).map .builtRule

/-- The diagnostic printed before `sys.exit(1)` when building one rule
raises: the enclosing policy's name, the offending entry's `"rule"`
discriminant, and `str(exc)`. -/
structure FatalExit where
  policyName : String
  ruleName : String
  message : String
  exitCode : Nat
  deriving DecidableEq, Repr

/-- The inner loop of `get_policies`: build each rule entry of one
policy in document order, stopping at the first raising entry with the
fatal diagnostic. -/
def buildRules (reg : Registry) (construct : Constructor) (policyName : String) :
    List RuleData → Except FatalExit (List RuleItem)
  | [] => .ok []
  | rd :: rest =>
    match buildRule reg construct rd with
    | .error msg => .error ⟨policyName, rd.rule, msg, 1⟩
    | .ok item =>
      match buildRules reg construct policyName rest with
      | .error f => .error f
      | .ok items => .ok (item :: items)

/-- The outer loop of `get_policies`: one `CleanupPolicy` per policy
entry, in document order. -/
def getPoliciesList (reg : Registry) (construct : Constructor) :
    List PolicyData → Except FatalExit (List CleanupPolicy)
  | [] => .ok []
  | pd :: rest =>
    match buildRules reg construct pd.pdName pd.pdRules with
    | .error f => .error f
    | .ok items =>
      match getPoliciesList reg construct rest with
      | .error f => .error f
      | .ok ps => .ok (⟨pd.pdName, items⟩ :: ps)

/-- `YamlConfigLoader.get_policies()` over an already-validated
document. -/
def getPolicies (reg : Registry) (construct : Constructor) (config : Config) :
    Except FatalExit (List CleanupPolicy) :=
  getPoliciesList reg construct config.policies

/-! ## Environment-variable expansion (`os.path.expandvars`)

`get_connection` calls `os.path.expandvars`, the standard library
scanner for `$name` / `${name}` references: a reference whose name is
bound in the environment is replaced by its value (which is not
rescanned), an unbound reference is left literal (and not rescanned),
anything else is copied through. -/

abbrev Env := List (String × String)

def lookupEnv : Env → String → Option String
  | [], _ => none
  | p :: rest, name => if p.1 = name then some p.2 else lookupEnv rest name

/-- `\w` under `re.ASCII`: ASCII letters, digits and underscore. -/
def isWordChar (c : Char) : Bool :=
  c.isAlpha || c.isDigit || c = '_'

/-- Split at the first `'\x7d'`: the characters before it and those after,
or `none` when the brace is never closed (the `\x7b[^\x7d]*\x7d` branch
of the scanner's pattern finds no match). -/
def splitAtBrace : List Char → Option (List Char × List Char)
  | [] => none
  | c :: rest =>
    if c = '\x7d' then some ([], rest)
    else
      match splitAtBrace rest with
      | none => none
      | some (nm, after) => some (c :: nm, after)

theorem length_dropWhile_le (p : Char → Bool) (l : List Char) :
    (l.dropWhile p).length ≤ l.length := by
  induction l with
  | nil => simp [List.dropWhile]
  | cons c rest ih =>
    simp only [List.dropWhile]
    cases p c <;> simp <;> omega

theorem splitAtBrace_length {cs nm after : List Char}
    (h : splitAtBrace cs = some (nm, after)) : after.length < cs.length := by
  induction cs generalizing nm after with
  | nil => simp [splitAtBrace] at h
  | cons c rest ih =>
    simp only [splitAtBrace] at h
    split at h
    · simp only [Option.some.injEq, Prod.mk.injEq] at h
      obtain ⟨_, h2⟩ := h
      subst h2
      simp only [List.length_cons]
      omega
    · cases hsp : splitAtBrace rest with
      | none => rw [hsp] at h; cases h
      | some pr =>
        obtain ⟨nm', after'⟩ := pr
        rw [hsp] at h
        simp only [Option.some.injEq, Prod.mk.injEq] at h
        obtain ⟨_, h2⟩ := h
        subst h2
        have := ih hsp
        simp only [List.length_cons]
        omega

/-- The scanning loop of `os.path.expandvars` over the remaining
characters, producing the expanded characters. -/
def expandChars (env : Env) : List Char → List Char
  | [] => []
  | c :: rest =>
    if c = '$' then
      match rest with
      | [] => ['$']
      | c2 :: rest2 =>
        if c2 = '\x7b' then
          match hsp : splitAtBrace rest2 with
          | none => '$' :: expandChars env (c2 :: rest2)
          | some (nm, after) =>
            have hlt : after.length < rest2.length := splitAtBrace_length hsp
            match lookupEnv env (String.mk nm) with
            | some v => v.data ++ expandChars env after
            | none => '$' :: '\x7b' :: (nm ++ '\x7d' :: expandChars env after)
        else if isWordChar c2 then
          have hle : (List.dropWhile isWordChar (c2 :: rest2)).length ≤ rest2.length + 1 :=
            length_dropWhile_le isWordChar (c2 :: rest2)
          match lookupEnv env (String.mk (List.takeWhile isWordChar (c2 :: rest2))) with
          | some v => v.data ++ expandChars env (List.dropWhile isWordChar (c2 :: rest2))
          | none =>
            '$' :: (List.takeWhile isWordChar (c2 :: rest2)
              ++ expandChars env (List.dropWhile isWordChar (c2 :: rest2)))
        else
          '$' :: expandChars env (c2 :: rest2)
    else
      c :: expandChars env rest
termination_by cs => cs.length
decreasing_by
  all_goals simp only [List.length_cons]
  all_goals omega

/-- `os.path.expandvars(path)`. -/
def expandvars (env : Env) (s : String) : String :=
  String.mk (expandChars env s.data)

/-- `YamlConfigLoader.get_connection()` over an already-validated
document: the server as written, user and password after
environment-variable expansion. -/
def getConnection (env : Env) (config : Config) : String × String × String :=
  (config.server, expandvars env config.user, expandvars env config.password)

/-! ## Script loader (`PythonLoader.get_policies`) -/

/-- What arrives from the external definition source: the item's
`repr` and whether `isinstance(policy, CleanupPolicy)` holds. -/
structure ScriptPolicy where
  repr : String
  isCleanupPolicy : Bool
  deriving DecidableEq, Repr

/-- The imported module: its `RULES` attribute, when defined. -/
structure PyModule where
  rulesAttr : Option (List ScriptPolicy)
  deriving DecidableEq, Repr

/-- The outcome of `PythonLoader.import_module`: a module, or an
`ImportError` (the only exception class the caller catches). -/
inductive ImportResult where
  | importError (msg : String)
  | mod (m : PyModule)
  deriving DecidableEq, Repr

/-- The observable outcome of `PythonLoader.get_policies`: a policy
list, a reported termination (`sys.exit`, printed diagnostics and exit
code), or an exception that propagates out unreported. -/
inductive ScriptOutcome where
  | policies (ps : List ScriptPolicy)
  | exited (code : Nat) (printed : List String)
  | uncaughtAttributeError (attr : String)
  deriving DecidableEq, Repr

/-- `PythonLoader.get_policies()`: import the module (an `ImportError`
is printed and turned into `sys.exit(1)`), read its `RULES` attribute
(`getattr` raises `AttributeError` when absent, which no handler
catches), then `sys.exit` on the first item that is not a
`CleanupPolicy`. -/
def pythonGetPolicies (imp : ImportResult) : ScriptOutcome :=
  match imp with
  | .importError msg => .exited 1 ["Error: " ++ msg]
  | .mod m =>
    match m.rulesAttr with
    | none => .uncaughtAttributeError "RULES"
    | some ps =>
      match ps.find? (fun p => !p.isCleanupPolicy) with
      | some bad => .exited 1 ["Policy \x27" ++ bad.repr ++ "\x27 is not CleanupPolicy, check it please"]
      | none => .policies ps

/-! ## Registry lemmas -/

theorem lookupName_overwrite (reg : Registry) (name : String) (t : RuleType)
    (h : (lookupName reg name).isSome) :
    lookupName (reg.map fun p => if p.1 = name then (name, t) else p) name = some t := by
  induction reg with
  | nil => simp [lookupName] at h
  | cons p rest ih =>
    by_cases hp : p.1 = name
    · simp [lookupName, hp]
    · simp only [List.map_cons, if_neg hp]
      simp only [lookupName, if_neg hp] at h ⊢
      exact ih h

theorem lookupName_append_absent (reg : Registry) (name : String) (t : RuleType)
    (h : lookupName reg name = none) :
    lookupName (reg ++ [(name, t)]) name = some t := by
  induction reg with
  | nil => simp [lookupName]
  | cons p rest ih =>
    by_cases hp : p.1 = name
    · simp [lookupName, hp] at h
    · simp only [lookupName, if_neg hp] at h
      simp only [List.cons_append, lookupName, if_neg hp]
      exact ih h

theorem dictInsert_length_of_present (reg : Registry) (name : String) (t : RuleType)
    (h : (lookupName reg name).isSome) :
    (dictInsert reg name t).length = reg.length := by
  unfold dictInsert
  match hl : lookupName reg name with
  | some _ => simp
  | none => rw [hl] at h; simp at h

theorem register_eq_of_conflict_warning (reg : Registry) (rule : RuleType)
    (nameOpt : Option String) (h : (lookupName reg (effectiveName nameOpt rule)).isSome) :
    RuleRegistry.register reg rule nameOpt true = (reg, true) := by
  unfold RuleRegistry.register
  rw [if_pos ⟨h, rfl⟩]

theorem register_eq_noWarning (reg : Registry) (rule : RuleType) (nameOpt : Option String) :
    RuleRegistry.register reg rule nameOpt false =
      (dictInsert reg (effectiveName nameOpt rule) rule, false) := by
  unfold RuleRegistry.register
  rw [if_neg]
  simp

theorem register_eq_of_fresh (reg : Registry) (rule : RuleType) (nameOpt : Option String)
    (warning : Bool) (h : lookupName reg (effectiveName nameOpt rule) = none) :
    RuleRegistry.register reg rule nameOpt warning =
      (reg ++ [(effectiveName nameOpt rule, rule)], false) := by
  unfold RuleRegistry.register dictInsert
  rw [h, if_neg]
  simp [h]

/-- Two concrete, distinct rule classes sharing the registered name
`"X"` (distinct Python classes whose `name()` coincide). -/
def ruleA : RuleType :=
  { clsId := 1, ruleName := "X", schemaOverride := none, params := [] }

def ruleB : RuleType :=
  { clsId := 2, ruleName := "X", schemaOverride := none, params := [] }

/-- C1 counterexample: with `warning=False`, registering `ruleB` under
the already-mapped name `"X"` does NOT skip re-insertion — the mapping
is overwritten (`ruleB ≠ ruleA`), and `get("X")` now returns `ruleB`,
not the originally registered `ruleA`. -/
theorem register_noWarning_overwrites_counterexample :
    (RuleRegistry.register [("X", ruleA)] ruleB (some "X") false).1 = [("X", ruleB)] ∧
    RuleRegistry.get (RuleRegistry.register [("X", ruleA)] ruleB (some "X") false).1 "X"
        = .ok ruleB ∧
    ruleB ≠ ruleA := by
  refine ⟨rfl, rfl, ?_⟩
  decide

/-- C1 (amended): with `warnOnConflict=false`, a conflicting
registration is re-inserted: the name is silently remapped to the new
rule type (no warning is emitted, the registry size does not grow, and
`get(name)` now returns the newly registered rule type). -/
theorem register_noWarning_overwrites (reg : Registry) (rule : RuleType)
    (nameOpt : Option String) (t0 : RuleType)
    (h : lookupName reg (effectiveName nameOpt rule) = some t0) :
    (RuleRegistry.register reg rule nameOpt false).2 = false ∧
    RuleRegistry.get (RuleRegistry.register reg rule nameOpt false).1
        (effectiveName nameOpt rule) = .ok rule ∧
    (RuleRegistry.register reg rule nameOpt false).1.length = reg.length := by
  have hsome : (lookupName reg (effectiveName nameOpt rule)).isSome := by rw [h]; rfl
  rw [register_eq_noWarning]
  refine ⟨rfl, ?_, ?_⟩
  · unfold RuleRegistry.get dictInsert
    rw [h]
    rw [lookupName_overwrite reg _ rule hsome]
  · exact dictInsert_length_of_present reg _ rule hsome

/-- C1 witness: instantiating the amended statement on a concrete
registry. -/
theorem register_noWarning_overwrites_witness :
    (RuleRegistry.register [("X", ruleA)] ruleB (some "X") false).2 = false ∧
    RuleRegistry.get (RuleRegistry.register [("X", ruleA)] ruleB (some "X") false).1
        (effectiveName (some "X") ruleB) = .ok ruleB ∧
    (RuleRegistry.register [("X", ruleA)] ruleB (some "X") false).1.length =
      ([("X", ruleA)] : Registry).length :=
  register_noWarning_overwrites [("X", ruleA)] ruleB (some "X") ruleA (by decide)

/-- C8: with `warning=True`, registering a second rule type under an
already-mapped name emits the warning and returns without touching the
mapping: the registry value is unchanged, the first registration is
still what `get` returns, and the size does not grow.  (`register`
is total — it never throws.) -/
theorem register_warning_keeps_existing (reg : Registry) (rule : RuleType)
    (nameOpt : Option String) (t0 : RuleType)
    (h : lookupName reg (effectiveName nameOpt rule) = some t0) :
    RuleRegistry.register reg rule nameOpt true = (reg, true) ∧
    RuleRegistry.get (RuleRegistry.register reg rule nameOpt true).1
        (effectiveName nameOpt rule) = .ok t0 ∧
    (RuleRegistry.register reg rule nameOpt true).1.length = reg.length := by
  have hsome : (lookupName reg (effectiveName nameOpt rule)).isSome := by rw [h]; rfl
  have hreg := register_eq_of_conflict_warning reg rule nameOpt hsome
  refine ⟨hreg, ?_, by rw [hreg]⟩
  rw [hreg]
  unfold RuleRegistry.get
  rw [h]

/-- C8 witness: concrete conflicting registration with the warning
enabled. -/
theorem register_warning_keeps_existing_witness :
    RuleRegistry.register [("X", ruleA)] ruleB (some "X") true = ([("X", ruleA)], true) ∧
    RuleRegistry.get (RuleRegistry.register [("X", ruleA)] ruleB (some "X") true).1
        (effectiveName (some "X") ruleB) = .ok ruleA ∧
    (RuleRegistry.register [("X", ruleA)] ruleB (some "X") true).1.length =
      ([("X", ruleA)] : Registry).length :=
  register_warning_keeps_existing [("X", ruleA)] ruleB (some "X") ruleA (by decide)

/-- C7: `get(name)` returns the rule type the registry maps `name` to
when one is present — in particular a freshly registered rule type is
retrievable under its effective name — and fails with
`UnknownRuleError` carrying the name when it is absent. -/
theorem get_mapped_or_unknown (reg : Registry) (name : String) :
    (∀ t, lookupName reg name = some t → RuleRegistry.get reg name = .ok t) ∧
    (lookupName reg name = none → RuleRegistry.get reg name = .error ⟨name⟩) ∧
    (∀ rule nameOpt warning, lookupName reg (effectiveName nameOpt rule) = none →
      RuleRegistry.get (RuleRegistry.register reg rule nameOpt warning).1
          (effectiveName nameOpt rule) = .ok rule) := by
  refine ⟨fun t ht => ?_, fun hn => ?_, fun rule nameOpt warning hn => ?_⟩
  · unfold RuleRegistry.get
    rw [ht]
  · unfold RuleRegistry.get
    rw [hn]
  · rw [register_eq_of_fresh reg rule nameOpt warning hn]
    unfold RuleRegistry.get
    rw [lookupName_append_absent reg _ rule hn]

/-- C7 witness: retrieval succeeds on a mapped name, fails with
`UnknownRuleError` on an absent one, and retrieves a fresh
registration. -/
theorem get_mapped_or_unknown_witness :
    RuleRegistry.get [("X", ruleA)] "X" = .ok ruleA ∧
    RuleRegistry.get [("X", ruleA)] "Y" = .error ⟨"Y"⟩ ∧
    RuleRegistry.get (RuleRegistry.register [("X", ruleA)] ruleB (some "Z") true).1
        (effectiveName (some "Z") ruleB) = .ok ruleB :=
  ⟨(get_mapped_or_unknown [("X", ruleA)] "X").1 ruleA (by decide),
   (get_mapped_or_unknown [("X", ruleA)] "Y").2.1 (by decide),
   (get_mapped_or_unknown [("X", ruleA)] "Z").2.2 ruleB (some "Z") true (by decide)⟩

/-! ## Schema synthesis: one descriptor per non-ignored parameter -/

/-- The parameter names the synthesizer skips: the literal set
`{"self", "args", "kwargs"}`. -/
def isIgnoredParamName (s : String) : Bool :=
  s == "self" || s == "args" || s == "kwargs"

/-- The spec's per-parameter descriptor (§4.2), written from its words:
value-checker chosen from the declared type (integer-checker for an
integer-typed parameter, string-checker for a string-typed one,
otherwise — untyped included — an unconstrained checker); a
conditional-optional descriptor carrying the default when the parameter
has one, else a conditional-required descriptor, both gated on the
discriminant field `"rule"` equaling the rule's registered name. -/
def specFieldDescriptor (name : String) (p : Param) : Conditional :=
  let check : CheckFn :=
    match p.annotation with
    | .int => .check_int
    | .str => .check_string
    | _ => .check_any
  match p.default with
  | some d => .conditionalOptional p.pname check d "rule" name false
  | none => .conditional p.pname check "rule" name false

theorem conditionalsOfParams_spec (name : String) (ps : List Param) :
    conditionalsOfParams name ps =
      (ps.filter fun p => !isIgnoredParamName p.pname).map (specFieldDescriptor name) := by
  induction ps with
  | nil => rfl
  | cons p rest ih =>
    by_cases hp : p.pname = "self" ∨ p.pname = "args" ∨ p.pname = "kwargs"
    · have hig : isIgnoredParamName p.pname = true := by
        simp only [isIgnoredParamName, Bool.or_eq_true, beq_iff_eq]
        tauto
      simp [conditionalsOfParams, hp, List.filter_cons, hig, ih]
    · have hig : isIgnoredParamName p.pname = false := by
        simp only [isIgnoredParamName, Bool.or_eq_false_iff, beq_eq_false_iff_ne, ne_eq]
        tauto
      simp only [conditionalsOfParams, if_neg hp, List.filter_cons, hig, Bool.not_false,
        if_pos, List.map_cons, ih]
      cases hann : p.annotation <;> cases hdef : p.default <;>
        simp [specFieldDescriptor, getCheckFn, hann, hdef]

theorem specFieldDescriptor_key (name : String) (p : Param) :
    (specFieldDescriptor name p).key = p.pname := by
  unfold specFieldDescriptor
  cases p.annotation <;> cases p.default <;> rfl

theorem specFieldDescriptor_kind_irrelevant (name : String) (p : Param) (k : ParamKind) :
    specFieldDescriptor name { p with kind := k } = specFieldDescriptor name p := by
  cases p
  rfl

/-- C2 counterexample: schema synthesis does not exclude by parameter
kind.  A rule whose constructor takes an ordinary (non-variadic)
parameter literally named `args` gets NO field descriptor, and a rule
whose constructor takes a variadic parameter named `rest` DOES get a
(required, unconstrained) descriptor. -/
def ruleOrdinaryArgs : RuleType :=
  { clsId := 3
    ruleName := "OrdinaryArgs"
    schemaOverride := none
    params := [{ pname := "args", kind := .positionalOrKeyword, annotation := .int, default := none }] }

def ruleVarRest : RuleType :=
  { clsId := 4
    ruleName := "VarRest"
    schemaOverride := none
    params := [{ pname := "rest", kind := .varPositional, annotation := .empty, default := none }] }

theorem schema_excludes_by_kind_counterexample :
    getRuleConditionals "OrdinaryArgs" ruleOrdinaryArgs = [] ∧
    getRuleConditionals "VarRest" ruleVarRest =
      [.conditional "rest" .check_any "rule" "VarRest" false] :=
  ⟨rfl, rfl⟩

/-- C2 (amended): for a rule type without a schema override, synthesis
emits exactly one field descriptor per constructor parameter, excluding
the parameters literally named `self`, `args` or `kwargs` (not
excluding by parameter kind): a conditional-optional descriptor
carrying the default when the parameter has a default and a
conditional-required descriptor otherwise, gated on the discriminant
field `"rule"` equaling the rule's name, with integer-checker for an
`int`-annotated parameter, string-checker for a `str`-annotated one and
an unconstrained checker for any other or missing annotation. -/
theorem getRuleConditionals_matches_spec (name : String) (rule : RuleType)
    (h : rule.schemaOverride = none) :
    getRuleConditionals name rule =
      (rule.params.filter fun p => !isIgnoredParamName p.pname).map (specFieldDescriptor name) := by
  unfold getRuleConditionals
  rw [h]
  exact conditionalsOfParams_spec name rule.params

/-- C2 witness: a concrete rule type with a required `int` parameter, a
defaulted `str` parameter, an unannotated defaulted parameter, and the
implicit `self`. -/
def ruleDemo : RuleType :=
  { clsId := 5
    ruleName := "Demo"
    schemaOverride := none
    params :=
      [{ pname := "self", kind := .positionalOrKeyword, annotation := .empty, default := none },
       { pname := "days", kind := .positionalOrKeyword, annotation := .int, default := none },
       { pname := "mode", kind := .positionalOrKeyword, annotation := .str, default := some (.vstr "m") },
       { pname := "extra", kind := .keywordOnly, annotation := .empty, default := some .vnone }] }

theorem getRuleConditionals_matches_spec_witness :
    getRuleConditionals "Demo" ruleDemo =
      (ruleDemo.params.filter fun p => !isIgnoredParamName p.pname).map (specFieldDescriptor "Demo") :=
  getRuleConditionals_matches_spec "Demo" ruleDemo rfl

/-- C10: the synthesizer excludes constructor parameters by their
literal names `self`, `args`, `kwargs`, not by parameter kind: the
descriptor keys are exactly the names of the parameters surviving that
literal-name filter, and rewriting every parameter's kind (e.g. turning
an ordinary parameter variadic or vice versa) leaves the synthesized
descriptors unchanged. -/
theorem schema_excludes_by_literal_name (name : String) (rule : RuleType)
    (h : rule.schemaOverride = none) :
    ((getRuleConditionals name rule).map Conditional.key
        = (rule.params.filter fun p => !isIgnoredParamName p.pname).map Param.pname) ∧
    (∀ f : ParamKind → ParamKind,
      conditionalsOfParams name (rule.params.map fun p => { p with kind := f p.kind })
        = getRuleConditionals name rule) := by
  constructor
  · unfold getRuleConditionals
    rw [h, conditionalsOfParams_spec, List.map_map]
    congr 1
    funext p
    exact specFieldDescriptor_key name p
  · intro f
    unfold getRuleConditionals
    rw [h, conditionalsOfParams_spec, conditionalsOfParams_spec, List.filter_map, List.map_map]
    have h1 : ((fun p => !isIgnoredParamName p.pname) ∘ fun p : Param => { p with kind := f p.kind })
        = fun p : Param => !isIgnoredParamName p.pname := by
      funext p
      cases p
      rfl
    have h2 : (specFieldDescriptor name ∘ fun p : Param => { p with kind := f p.kind })
        = specFieldDescriptor name := by
      funext p
      exact specFieldDescriptor_kind_irrelevant name p (f p.kind)
    rw [h1, h2]

/-- C10 witness: on the two concrete rule types, the ordinary
parameter named `args` is dropped and the variadic parameter named
`rest` is kept, and flipping every kind to `varKeyword` changes
nothing. -/
theorem schema_excludes_by_literal_name_witness :
    ((getRuleConditionals "OrdinaryArgs" ruleOrdinaryArgs).map Conditional.key
        = (ruleOrdinaryArgs.params.filter fun p => !isIgnoredParamName p.pname).map Param.pname) ∧
    (∀ f : ParamKind → ParamKind,
      conditionalsOfParams "OrdinaryArgs" (ruleOrdinaryArgs.params.map fun p => { p with kind := f p.kind })
        = getRuleConditionals "OrdinaryArgs" ruleOrdinaryArgs) :=
  schema_excludes_by_literal_name "OrdinaryArgs" ruleOrdinaryArgs rfl

/-! ## The deferred `Repo` placeholder -/

/-- C4: when the discriminant resolves to the `Repo` class, a rule
entry with no remaining fields builds to the deferred rule-type
placeholder, while an entry with any extra field is constructed
normally via the rule constructor. -/
theorem buildRule_repo_deferred (reg : Registry) (construct : Constructor) (rd : RuleData)
    (h : RuleRegistry.get reg rd.rule = .ok Repo) :
    (rd.fields = [] → buildRule reg construct rd = .ok (.deferredType Repo)) ∧
    (rd.fields ≠ [] → buildRule reg construct rd = (construct Repo rd.fields).map .builtRule) := by
  constructor
  · intro hf
    unfold buildRule
    rw [h]
    simp [hf]
  · intro hf
    unfold buildRule
    rw [h]
    simp [hf]

/-- A registry holding only the `Repo` rule, and a constructor that
simply binds the validated fields. -/
def regRepo : Registry := [("Repo", Repo)]

def constructBind : Constructor := fun cls kwargs => .ok ⟨cls, kwargs⟩

/-- C4 witness: `{rule: "Repo"}` defers; `{rule: "Repo", name: "r"}`
constructs. -/
theorem buildRule_repo_deferred_witness :
    buildRule regRepo constructBind ⟨"Repo", []⟩ = .ok (.deferredType Repo) ∧
    buildRule regRepo constructBind ⟨"Repo", [("name", .vstr "r")]⟩ =
      (constructBind Repo [("name", .vstr "r")]).map .builtRule :=
  ⟨(buildRule_repo_deferred regRepo constructBind ⟨"Repo", []⟩ rfl).1 rfl,
   (buildRule_repo_deferred regRepo constructBind ⟨"Repo", [("name", .vstr "r")]⟩ rfl).2
     (by simp)⟩

/-! ## Declarative loading: fatal on the first failing rule, order
preservation otherwise -/

theorem buildRules_error_sound (reg : Registry) (construct : Constructor) (pname : String)
    (rds : List RuleData) :
    ∀ f : FatalExit, buildRules reg construct pname rds = .error f →
    ∃ rd ∈ rds, ∃ msg, buildRule reg construct rd = .error msg ∧
      f = ⟨pname, rd.rule, msg, 1⟩ := by
  induction rds with
  | nil => intro f h; simp [buildRules] at h
  | cons rd rest ih =>
    intro f h
    unfold buildRules at h
    cases hb : buildRule reg construct rd with
    | error msg =>
      rw [hb] at h
      simp only [Except.error.injEq] at h
      exact ⟨rd, by simp, msg, hb, h.symm⟩
    | ok item =>
      rw [hb] at h
      cases hr : buildRules reg construct pname rest with
      | error f' =>
        rw [hr] at h
        simp only [Except.error.injEq] at h
        obtain ⟨rd', hmem, msg, hfail, hf⟩ := ih f' hr
        exact ⟨rd', by simp [hmem], msg, hfail, by rw [← h, hf]⟩
      | ok items => rw [hr] at h; cases h

theorem buildRules_error_of_failure (reg : Registry) (construct : Constructor) (pname : String)
    (rds : List RuleData) (rd : RuleData) (msg : String)
    (hmem : rd ∈ rds) (hfail : buildRule reg construct rd = .error msg) :
    ∃ f, buildRules reg construct pname rds = .error f := by
  induction rds with
  | nil => cases hmem
  | cons rd0 rest ih =>
    unfold buildRules
    cases hb : buildRule reg construct rd0 with
    | error m => exact ⟨⟨pname, rd0.rule, m, 1⟩, rfl⟩
    | ok item =>
      have hrest : rd ∈ rest := by
        cases List.mem_cons.mp hmem with
        | inl heq => rw [heq, hb] at hfail; cases hfail
        | inr hmem' => exact hmem'
      obtain ⟨f, hf⟩ := ih hrest
      rw [hf]
      exact ⟨f, rfl⟩

theorem getPoliciesList_error_sound (reg : Registry) (construct : Constructor)
    (pds : List PolicyData) :
    ∀ f : FatalExit, getPoliciesList reg construct pds = .error f →
    ∃ pd ∈ pds, ∃ rd ∈ pd.pdRules, ∃ msg,
      buildRule reg construct rd = .error msg ∧ f = ⟨pd.pdName, rd.rule, msg, 1⟩ := by
  induction pds with
  | nil => intro f h; simp [getPoliciesList] at h
  | cons pd rest ih =>
    intro f h
    unfold getPoliciesList at h
    cases hb : buildRules reg construct pd.pdName pd.pdRules with
    | error f' =>
      rw [hb] at h
      simp only [Except.error.injEq] at h
      obtain ⟨rd, hmem, msg, hfail, hf⟩ := buildRules_error_sound reg construct _ _ f' hb
      exact ⟨pd, by simp, rd, hmem, msg, hfail, by rw [← h, hf]⟩
    | ok items =>
      rw [hb] at h
      cases hr : getPoliciesList reg construct rest with
      | error f' =>
        rw [hr] at h
        simp only [Except.error.injEq] at h
        obtain ⟨pd', hmem, rd, hrd, msg, hfail, hf⟩ := ih f' hr
        exact ⟨pd', by simp [hmem], rd, hrd, msg, hfail, by rw [← h, hf]⟩
      | ok ps => rw [hr] at h; cases h

theorem getPoliciesList_error_of_failure (reg : Registry) (construct : Constructor)
    (pds : List PolicyData) (pd : PolicyData) (rd : RuleData) (msg : String)
    (hpd : pd ∈ pds) (hrd : rd ∈ pd.pdRules)
    (hfail : buildRule reg construct rd = .error msg) :
    ∃ f, getPoliciesList reg construct pds = .error f := by
  induction pds with
  | nil => cases hpd
  | cons pd0 rest ih =>
    unfold getPoliciesList
    cases hb : buildRules reg construct pd0.pdName pd0.pdRules with
    | error f => exact ⟨f, rfl⟩
    | ok items =>
      have hrest : pd ∈ rest := by
        cases List.mem_cons.mp hpd with
        | inl heq =>
          subst heq
          obtain ⟨f, hf⟩ := buildRules_error_of_failure reg construct pd.pdName _ rd msg hrd hfail
          rw [hf] at hb
          cases hb
        | inr hmem' => exact hmem'
      obtain ⟨f, hf⟩ := ih hrest
      rw [hf]
      exact ⟨f, rfl⟩

/-- C3: if any rule entry of any policy in the document fails to
construct, `get_policies` does not return a (partial) policy list: it
terminates with exit code 1 after reporting an enclosing policy's name,
the offending entry's `"rule"` discriminant, and the raised message —
all three taken from an actually-failing rule of that policy. -/
theorem getPolicies_fatal_on_failure (reg : Registry) (construct : Constructor)
    (config : Config) (pd : PolicyData) (rd : RuleData) (msg : String)
    (hpd : pd ∈ config.policies) (hrd : rd ∈ pd.pdRules)
    (hfail : buildRule reg construct rd = .error msg) :
    ∃ f : FatalExit,
      getPolicies reg construct config = .error f ∧ f.exitCode = 1 ∧
      ∃ pd' ∈ config.policies, ∃ rd' ∈ pd'.pdRules, ∃ msg',
        buildRule reg construct rd' = .error msg' ∧
        f = ⟨pd'.pdName, rd'.rule, msg', 1⟩ := by
  obtain ⟨f, hf⟩ :=
    getPoliciesList_error_of_failure reg construct config.policies pd rd msg hpd hrd hfail
  obtain ⟨pd', hpd', rd', hrd', msg', hfail', hfeq⟩ :=
    getPoliciesList_error_sound reg construct config.policies f hf
  exact ⟨f, hf, by rw [hfeq], pd', hpd', rd', hrd', msg', hfail', hfeq⟩

/-- A constructor that rejects every call, standing for a rule class
whose `__init__` raises. -/
def constructFail : Constructor := fun _ _ => .error "boom"

def demoFailConfig : Config :=
  { server := "s", user := "u", password := "p"
    policies := [⟨"P1", [⟨"Repo", [("name", .vstr "r")]⟩]⟩] }

/-- C3 witness: a one-policy document whose single rule's constructor
raises. -/
theorem getPolicies_fatal_on_failure_witness :
    ∃ f : FatalExit,
      getPolicies regRepo constructFail demoFailConfig = .error f ∧ f.exitCode = 1 ∧
      ∃ pd' ∈ demoFailConfig.policies, ∃ rd' ∈ pd'.pdRules, ∃ msg',
        buildRule regRepo constructFail rd' = .error msg' ∧
        f = ⟨pd'.pdName, rd'.rule, msg', 1⟩ :=
  getPolicies_fatal_on_failure regRepo constructFail demoFailConfig
    ⟨"P1", [⟨"Repo", [("name", .vstr "r")]⟩]⟩ ⟨"Repo", [("name", .vstr "r")]⟩ "boom"
    (by simp [demoFailConfig]) (by simp) rfl

theorem buildRules_ok_forall₂ (reg : Registry) (construct : Constructor) (pname : String)
    (rds : List RuleData) (items : List RuleItem)
    (h : buildRules reg construct pname rds = .ok items) :
    List.Forall₂ (fun rd item => buildRule reg construct rd = .ok item) rds items := by
  induction rds generalizing items with
  | nil =>
    simp only [buildRules, Except.ok.injEq] at h
    rw [← h]
    exact List.Forall₂.nil
  | cons rd rest ih =>
    unfold buildRules at h
    cases hb : buildRule reg construct rd with
    | error msg => rw [hb] at h; cases h
    | ok item =>
      rw [hb] at h
      cases hr : buildRules reg construct pname rest with
      | error f => rw [hr] at h; cases h
      | ok items' =>
        rw [hr] at h
        simp only [Except.ok.injEq] at h
        rw [← h]
        exact List.Forall₂.cons hb (ih items' hr)

/-- C5: a successful `get_policies` returns one policy per document
policy entry, in document order, whose name is the entry's name and
whose rule sequence corresponds element-by-element, in document order,
to the entry's rule list (each element being exactly what building that
rule entry produced) — no insertion, omission, or reordering. -/
theorem getPoliciesList_ok_forall₂ (reg : Registry) (construct : Constructor)
    (pds : List PolicyData) (ps : List CleanupPolicy)
    (h : getPoliciesList reg construct pds = .ok ps) :
    List.Forall₂ (fun pd p => p.name = pd.pdName ∧
        List.Forall₂ (fun rd item => buildRule reg construct rd = .ok item) pd.pdRules p.rules)
      pds ps := by
  induction pds generalizing ps with
  | nil =>
    simp only [getPoliciesList, Except.ok.injEq] at h
    rw [← h]
    exact List.Forall₂.nil
  | cons pd rest ih =>
    unfold getPoliciesList at h
    cases hb : buildRules reg construct pd.pdName pd.pdRules with
    | error f => rw [hb] at h; cases h
    | ok items =>
      rw [hb] at h
      cases hr : getPoliciesList reg construct rest with
      | error f => rw [hr] at h; cases h
      | ok ps' =>
        rw [hr] at h
        simp only [Except.ok.injEq] at h
        rw [← h]
        exact List.Forall₂.cons ⟨rfl, buildRules_ok_forall₂ reg construct _ _ _ hb⟩ (ih ps' hr)

/-- C5: a successful `get_policies` returns one policy per document
policy entry, in document order, whose name is the entry's name and
whose rule sequence corresponds element-by-element, in document order,
to the entry's rule list (each element being exactly what building that
rule entry produced) — no insertion, omission, or reordering. -/
theorem getPolicies_preserves_order (reg : Registry) (construct : Constructor)
    (config : Config) (ps : List CleanupPolicy)
    (h : getPolicies reg construct config = .ok ps) :
    List.Forall₂ (fun pd p => p.name = pd.pdName ∧
        List.Forall₂ (fun rd item => buildRule reg construct rd = .ok item) pd.pdRules p.rules)
      config.policies ps :=
  getPoliciesList_ok_forall₂ reg construct config.policies ps h

/-- A three-rule policy document over the `Repo`-only registry. -/
def demoOrderConfig : Config :=
  { server := "s", user := "u", password := "p"
    policies := [⟨"P1", [⟨"Repo", [("name", .vstr "r1")]⟩,
                         ⟨"Repo", []⟩,
                         ⟨"Repo", [("name", .vstr "r3")]⟩]⟩] }

/-- C5 witness: the three rules `[r1, r2, r3]` of the document come
back as exactly three corresponding items in that order. -/
theorem getPolicies_preserves_order_witness :
    List.Forall₂ (fun (pd : PolicyData) (p : CleanupPolicy) => p.name = pd.pdName ∧
        List.Forall₂ (fun rd item => buildRule regRepo constructBind rd = .ok item)
          pd.pdRules p.rules)
      demoOrderConfig.policies
      [⟨"P1", [.builtRule ⟨Repo, [("name", .vstr "r1")]⟩,
               .deferredType Repo,
               .builtRule ⟨Repo, [("name", .vstr "r3")]⟩]⟩] :=
  getPolicies_preserves_order regRepo constructBind demoOrderConfig
    [⟨"P1", [.builtRule ⟨Repo, [("name", .vstr "r1")]⟩,
             .deferredType Repo,
             .builtRule ⟨Repo, [("name", .vstr "r3")]⟩]⟩] rfl

/-! ## Connection triple and expansion semantics -/

theorem expandChars_nil (env : Env) : expandChars env [] = [] := by
  unfold expandChars
  rfl

theorem splitAtBrace_append (nm tail : List Char) (h : '\x7d' ∉ nm) :
    splitAtBrace (nm ++ '\x7d' :: tail) = some (nm, tail) := by
  induction nm with
  | nil => simp [splitAtBrace]
  | cons c rest ih =>
    have hc : ¬(c = '\x7d') := fun hh => h (by rw [hh]; exact List.mem_cons_self _ _)
    have h' : '\x7d' ∉ rest := fun hh => h (List.mem_cons_of_mem _ hh)
    simp only [List.cons_append, splitAtBrace, if_neg hc, List.append_eq]
    rw [ih h']

theorem isWordChar_ne_brace {c : Char} (h : isWordChar c = true) : ¬(c = '\x7b') := by
  intro hh
  subst hh
  simp [isWordChar] at h

theorem expandChars_word (env : Env) (c : Char) (cs : List Char)
    (hwc : isWordChar c = true) (hcs : ∀ x ∈ cs, isWordChar x = true) :
    expandChars env ('$' :: c :: cs) =
      match lookupEnv env (String.mk (c :: cs)) with
      | some v => v.data
      | none => '$' :: c :: cs := by
  have htake : List.takeWhile isWordChar (c :: cs) = c :: cs := by
    rw [List.takeWhile_eq_self_iff]
    intro x hx
    cases List.mem_cons.mp hx with
    | inl h => rw [h]; exact hwc
    | inr h => exact hcs x h
  have hdrop : List.dropWhile isWordChar (c :: cs) = [] := by
    rw [List.dropWhile_eq_nil_iff]
    intro x hx
    cases List.mem_cons.mp hx with
    | inl h => rw [h]; exact hwc
    | inr h => exact hcs x h
  unfold expandChars
  simp only [if_pos rfl, if_true, if_neg (isWordChar_ne_brace hwc), if_pos hwc, htake, hdrop,
    expandChars_nil, List.append_nil]

theorem expandChars_brace (env : Env) (nm tail : List Char) (hnb : '\x7d' ∉ nm) :
    expandChars env ('$' :: '\x7b' :: (nm ++ '\x7d' :: tail)) =
      match lookupEnv env (String.mk nm) with
      | some v => v.data ++ expandChars env tail
      | none => '$' :: '\x7b' :: (nm ++ '\x7d' :: expandChars env tail) := by
  conv_lhs => rw [expandChars]
  simp only [if_pos rfl, if_true]
  split
  · rename_i hsp
    rw [splitAtBrace_append nm tail hnb] at hsp
    cases hsp
  · rename_i nm1 after hsp
    rw [splitAtBrace_append nm tail hnb] at hsp
    simp only [Option.some.injEq, Prod.mk.injEq] at hsp
    obtain ⟨h1, h2⟩ := hsp
    subst h1
    subst h2
    rfl

/-- C6: `get_connection` returns the server exactly as written in the
document and `user`/`password` after environment-variable expansion,
where expansion substitutes a bound `$VAR` or `${VAR}` reference by its
value from the process environment and leaves an unbound reference as
literal text. -/
theorem getConnection_spec (env : Env) (config : Config) :
    getConnection env config =
      (config.server, expandvars env config.user, expandvars env config.password) ∧
    (∀ name v, lookupEnv env name = some v → name ≠ "" →
      (∀ c ∈ name.data, isWordChar c = true) →
      expandvars env ("$" ++ name) = v) ∧
    (∀ name, lookupEnv env name = none → name ≠ "" →
      (∀ c ∈ name.data, isWordChar c = true) →
      expandvars env ("$" ++ name) = "$" ++ name) ∧
    (∀ name v, lookupEnv env name = some v → '\x7d' ∉ name.data →
      expandvars env ("$\x7b" ++ name ++ "\x7d") = v) ∧
    (∀ name, lookupEnv env name = none → '\x7d' ∉ name.data →
      expandvars env ("$\x7b" ++ name ++ "\x7d") = "$\x7b" ++ name ++ "\x7d") := by
  have hdata : ∀ name : String, name ≠ "" → ∃ c cs, name.data = c :: cs := by
    intro name hne
    cases hd : name.data with
    | nil =>
      exfalso
      apply hne
      cases name
      simp only at hd
      rw [hd]
    | cons c cs => exact ⟨c, cs, rfl⟩
  have hmkdata : ∀ name : String, String.mk name.data = name := fun name => rfl
  have hworddata : ∀ (name : String) (c : Char) (cs : List Char), name.data = c :: cs →
      ("$" ++ name).data = '$' :: c :: cs := by
    intro name c cs hd
    rw [String.data_append, hd]
    rfl
  have hbracedata : ∀ name : String,
      ("$\x7b" ++ name ++ "\x7d").data = '$' :: '\x7b' :: (name.data ++ '\x7d' :: []) := by
    intro name
    rw [String.data_append, String.data_append]
    rfl
  refine ⟨rfl, ?_, ?_, ?_, ?_⟩
  · intro name v hv hne hw
    obtain ⟨c, cs, hd⟩ := hdata name hne
    have hwc : isWordChar c = true := hw c (by rw [hd]; exact List.mem_cons_self c cs)
    have hcs : ∀ x ∈ cs, isWordChar x = true := fun x hx =>
      hw x (by rw [hd]; exact List.mem_cons_of_mem _ hx)
    unfold expandvars
    rw [hworddata name c cs hd, expandChars_word env c cs hwc hcs, ← hd, hmkdata, hv]
  · intro name hv hne hw
    obtain ⟨c, cs, hd⟩ := hdata name hne
    have hwc : isWordChar c = true := hw c (by rw [hd]; exact List.mem_cons_self c cs)
    have hcs : ∀ x ∈ cs, isWordChar x = true := fun x hx =>
      hw x (by rw [hd]; exact List.mem_cons_of_mem _ hx)
    unfold expandvars
    rw [hworddata name c cs hd, expandChars_word env c cs hwc hcs, ← hd, hmkdata, hv, hd,
      ← hworddata name c cs hd]
  · intro name v hv hnb
    unfold expandvars
    rw [hbracedata name, expandChars_brace env name.data [] hnb, hmkdata, hv]
    show String.mk (v.data ++ expandChars env []) = v
    rw [expandChars_nil, List.append_nil]
  · intro name hv hnb
    unfold expandvars
    rw [hbracedata name, expandChars_brace env name.data [] hnb, hmkdata, hv]
    show String.mk ('$' :: '\x7b' :: (name.data ++ '\x7d' :: expandChars env [])) = "$\x7b" ++ name ++ "\x7d"
    rw [expandChars_nil, ← hbracedata name]

/-- C6 witness: with `DEPLOY_USER=alice` in the environment, a document
with `user: "$DEPLOY_USER"` and `password: "$\x7bMISSING\x7d"` yields the
unexpanded server, the substituted user, and the literal password. -/
def demoEnv : Env := [("DEPLOY_USER", "alice")]

def demoConnConfig : Config :=
  { server := "$SERVER", user := "$DEPLOY_USER", password := "$\x7bMISSING\x7d", policies := [] }

theorem getConnection_spec_witness :
    getConnection demoEnv demoConnConfig =
      ("$SERVER", expandvars demoEnv "$DEPLOY_USER", expandvars demoEnv "$\x7bMISSING\x7d") ∧
    expandvars demoEnv ("$" ++ "DEPLOY_USER") = "alice" ∧
    expandvars demoEnv ("$\x7b" ++ "MISSING" ++ "\x7d") = "$\x7b" ++ "MISSING" ++ "\x7d" :=
  ⟨(getConnection_spec demoEnv demoConnConfig).1,
   (getConnection_spec demoEnv demoConnConfig).2.1 "DEPLOY_USER" "alice" rfl (by decide)
     (by decide),
   (getConnection_spec demoEnv demoConnConfig).2.2.2.2 "MISSING" rfl (by decide)⟩


/-! ## Script loader outcomes -/

/-- C9 counterexample: when the import succeeds but the module has no
`RULES` attribute, `PythonLoader.get_policies` neither reports nor
exits — the `AttributeError` from `getattr` propagates out unreported
(only `ImportError` is caught). -/
theorem pythonGetPolicies_missing_rules_counterexample :
    pythonGetPolicies (ImportResult.mod ⟨none⟩) = .uncaughtAttributeError "RULES" := rfl

/-- C9 (amended): an `ImportError` while importing the external
definition source is reported (`Error: <cause>`) and the loader
terminates with exit status 1; but an absent `RULES` collection makes
the lookup raise an `AttributeError` that propagates out of
`get_policies` unreported. -/
theorem pythonGetPolicies_import_reported_lookup_uncaught (msg : String) (m : PyModule) :
    pythonGetPolicies (.importError msg) = .exited 1 ["Error: " ++ msg] ∧
    (m.rulesAttr = none → pythonGetPolicies (.mod m) = .uncaughtAttributeError "RULES") := by
  constructor
  · rfl
  · intro h
    simp only [pythonGetPolicies, h]

/-- C9 witness: a failing import is reported and exits 1; a module
without `RULES` yields the propagating exception. -/
theorem pythonGetPolicies_import_reported_lookup_uncaught_witness :
    pythonGetPolicies (.importError "No module named policies") =
      .exited 1 ["Error: No module named policies"] ∧
    pythonGetPolicies (.mod ⟨none⟩) = .uncaughtAttributeError "RULES" :=
  ⟨(pythonGetPolicies_import_reported_lookup_uncaught "No module named policies" ⟨none⟩).1,
   (pythonGetPolicies_import_reported_lookup_uncaught "No module named policies" ⟨none⟩).2 rfl⟩

end ArtifactoryCleanup
